import Mathlib

/-!
# Verification of the `createx` CLI mining core

Shallow embedding of `src/createx/__main__.py` (the `mine` command: option
validation, pattern-condition construction, and the salt-mining loop).

Python strings are modelled as `List Char`; byte strings as `List Nat`
(each element a byte value).  The address returned by
`createx.compute_address` is an `AddressType`, i.e. a checksummed
(mixed-case) `0x`-prefixed hex string; we model it as `List Char` and treat
the derivation function itself as an opaque parameter, since `mine` only
calls it and never inspects it.
-/

namespace CreateX

/-- Python `s.replace("0x", "")`: removes every (non-overlapping,
left-to-right) occurrence of the two-character substring `0x`. -/
def pyReplace0x : List Char → List Char
  | '0' :: 'x' :: rest => pyReplace0x rest
  | c :: rest => c :: pyReplace0x rest
  | [] => []

/-- Python `s[-n:]` for a list and a nonnegative `n`.  Note Python's quirk:
`s[-0:]` is `s[0:]`, the whole sequence. -/
def pySliceLast {α : Type} (n : Nat) (l : List α) : List α :=
  if n = 0 then l else l.drop (l.length - n)

/-- Python `max(l) == 0` for a byte sequence (callers only apply it to
non-empty slices; Python would raise on an empty one). -/
def listMax (l : List Nat) : Nat := l.foldr max 0

/-- Value of a hex digit, as used by `eth_utils` hex decoding. -/
def hexVal (c : Char) : Nat :=
  if '0' ≤ c ∧ c ≤ '9' then c.toNat - 48
  else if 'a' ≤ c ∧ c ≤ 'f' then c.toNat - 87
  else if 'A' ≤ c ∧ c ≤ 'F' then c.toNat - 55
  else 0

/-- Decode consecutive pairs of hex digits into bytes. -/
def hexPairsToBytes : List Char → List Nat
  | c1 :: c2 :: rest => (16 * hexVal c1 + hexVal c2) :: hexPairsToBytes rest
  | _ => []

/-- Strip a leading `0x`, as hex decoding of an address string does. -/
def drop0xPrefix : List Char → List Char
  | '0' :: 'x' :: rest => rest
  | l => l

/-- `eth_utils.address.to_canonical_address`: parse the `0x`-prefixed hex
string of an address into its canonical 20 bytes. -/
def to_canonical_address (a : List Char) : List Nat :=
  hexPairsToBytes (drop0xPrefix a)

/-- The allowed pattern characters, `set("0123456789AaBbCcDdEeFf")` in the
source. -/
def hexAlphabet : List Char :=
  ['0', '1', '2', '3', '4', '5', '6', '7', '8', '9',
   'A', 'a', 'B', 'b', 'C', 'c', 'D', 'd', 'E', 'e', 'F', 'f']

/-- `set(p) <= set("0123456789AaBbCcDdEeFf")`: every character of the
pattern is a hex digit.  Vacuously true for the empty pattern. -/
def isHexPattern (p : List Char) : Bool :=
  p.all (fun c => hexAlphabet.contains c)

/-- `has_enough_leading_zeros` (source lines 193-194):
`max(to_canonical_address(address)[:leading_zeros]) == 0`. -/
def has_enough_leading_zeros (leading_zeros : Nat) (address : List Char) : Bool :=
  listMax ((to_canonical_address address).take leading_zeros) == 0

/-- `has_enough_trailing_zeros` (source lines 230-231):
`max(to_canonical_address(address)[-trailing_zeros:]) == 0`. -/
def has_enough_trailing_zeros (trailing_zeros : Nat) (address : List Char) : Bool :=
  listMax (pySliceLast trailing_zeros (to_canonical_address address)) == 0

/-- `starts_with_pattern` (source lines 210-216):
`start = address.replace("0x", "")[:pattern_size]`, compared to the pattern,
lowercasing only the address side when not case-sensitive. -/
def starts_with_pattern (case_sensitive : Bool) (starts_with : List Char)
    (address : List Char) : Bool :=
  let pattern_size := starts_with.length
  let start := (pyReplace0x address).take pattern_size
  if case_sensitive then start == starts_with
  else start.map Char.toLower == starts_with

/-- `ends_with_pattern` (source lines 247-253):
`end = address[-pattern_size:]` (the `0x` prefix is NOT stripped here),
compared to the pattern, lowercasing only the address side when not
case-sensitive. -/
def ends_with_pattern (case_sensitive : Bool) (ends_with : List Char)
    (address : List Char) : Bool :=
  let pattern_size := ends_with.length
  let tail_ := pySliceLast pattern_size address
  if case_sensitive then tail_ == ends_with
  else tail_.map Char.toLower == ends_with

/-- `conditions_met` (source lines 262-263): `all(cond(address) for cond in
conditions)`. -/
def conditions_met (conditions : List (List Char → Bool))
    (address : List Char) : Bool :=
  conditions.all (fun cond => cond address)

/-- The errors the `mine` command can raise during validation:
`click.BadOptionUsage(option_name, message)` and `click.UsageError(message)`
(both are click usage errors, the spec's `ConfigError`). -/
inductive MineError where
  | badOption (option_name : String) (message : String)
  | usage (message : String)
deriving DecidableEq

/-- The `mine` command's pattern-related options (source lines 155-168).
`leading_zeros`/`trailing_zeros` are Python ints (possibly negative),
`starts_with`/`ends_with` are strings, `max_iterations` defaults to 5000. -/
structure MineConfig where
  leading_zeros : Option Int
  starts_with : Option (List Char)
  trailing_zeros : Option Int
  ends_with : Option (List Char)
  case_sensitive : Bool
  max_iterations : Int

/-- Source lines 183-196: validate `--leading-zeros` and append its
condition.  The `> 8` case only issues a warning, which does not alter
control flow and is not modelled. -/
def stepLeading (cfg : MineConfig) (conditions : List (List Char → Bool)) :
    Except MineError (List (List Char → Bool)) :=
  match cfg.leading_zeros with
  | none => .ok conditions
  | some n =>
    if n ≤ 0 then .error (.badOption "leading_zeros" "Cannot be less than 1")
    else .ok (conditions ++ [has_enough_leading_zeros n.toNat])

/-- Source lines 198-218: validate `--starts-with` and append its condition. -/
def stepStartsWith (cfg : MineConfig) (conditions : List (List Char → Bool)) :
    Except MineError (List (List Char → Bool)) :=
  match cfg.starts_with with
  | none => .ok conditions
  | some p =>
    if isHexPattern p then
      .ok (conditions ++ [starts_with_pattern cfg.case_sensitive p])
    else .error (.badOption "starts_with" "Must be valid hex")

/-- Source lines 220-233: validate `--trailing-zeros` and append its
condition. -/
def stepTrailing (cfg : MineConfig) (conditions : List (List Char → Bool)) :
    Except MineError (List (List Char → Bool)) :=
  match cfg.trailing_zeros with
  | none => .ok conditions
  | some n =>
    if n ≤ 0 then .error (.badOption "trailing_zeros" "Cannot be less than 1")
    else .ok (conditions ++ [has_enough_trailing_zeros n.toNat])

/-- Source lines 235-255: validate `--ends-with` and append its condition. -/
def stepEndsWith (cfg : MineConfig) (conditions : List (List Char → Bool)) :
    Except MineError (List (List Char → Bool)) :=
  match cfg.ends_with with
  | none => .ok conditions
  | some p =>
    if isHexPattern p then
      .ok (conditions ++ [ends_with_pattern cfg.case_sensitive p])
    else .error (.badOption "ends_with" "Must be valid hex")

/-- The validation phase of `mine` (source lines 171-260), producing the
condition list or the first raised usage error.

NOTE on source lines 171-179: the mutual-exclusion branch evaluates
`click.UsageError("Cannot use both ...")` but never raises or returns it —
the exception object is constructed and discarded, so the branch has no
effect on control flow.  The embedding reflects that: no check is
performed for the exclusive pairs. -/
def build_conditions (cfg : MineConfig) :
    Except MineError (List (List Char → Bool)) :=
  (stepLeading cfg []).bind fun c1 =>
  (stepStartsWith cfg c1).bind fun c2 =>
  (stepTrailing cfg c2).bind fun c3 =>
  (stepEndsWith cfg c3).bind fun c4 =>
  if c4.isEmpty then
    .error (.usage
      "Must use one of: --leading-zeros, --trailing-zeros, --starts-with, --ends-with")
  else .ok c4

/-- Outcome of the mining loop: either the winning address with the
iteration count and the salt that produced it (source line 294-296), or
exhaustion of the budget (the `click.UsageError` of lines 287-289). -/
inductive MineResult where
  | found (address : List Char) (iterations : Nat) (salt : List Nat)
  | exhausted (iterations : Nat)
deriving DecidableEq

/-- A finished run of the mining loop together with the number of times the
address-derivation function (`createx.compute_address`) was invoked. -/
structure MineRun where
  result : MineResult
  calls : Nat
deriving DecidableEq

/-- One compilation of the `while` loop of source lines 274-292, recursing
structurally on the remaining budget.  `fuel` is maintained equal to
`(max_iterations - iterations).toNat`, so the source's exhaustion test
`iterations >= max_iterations` is exactly `fuel = 0` (see
`budget_spent_iff_fuel_zero`), and each rejected pass decrements it while
`iterations` increments.  `deriveAddr` stands for the call to
`createx.compute_address` with all fixed arguments applied, a function of
the 11-byte salt only; the loop never inspects it.  On rejection with
budget remaining, the next salt is `to_canonical_address(address)[:11]`. -/
def mineLoopAux (deriveAddr : List Nat → List Char)
    (conditions : List (List Char → Bool)) :
    Nat → List Nat → Nat → MineRun
  | fuel, salt, iterations =>
    let address := deriveAddr salt
    if conditions_met conditions address then
      ⟨.found address iterations salt, 1⟩
    else
      match fuel with
      | 0 => ⟨.exhausted iterations, 1⟩
      | f + 1 =>
        let rest := mineLoopAux deriveAddr conditions f
          ((to_canonical_address address).take 11) (iterations + 1)
        ⟨rest.result, rest.calls + 1⟩

/-- The mining loop (source lines 274-292), entered with the current
iteration counter and an `Int` budget as in the source. -/
def mineLoop (deriveAddr : List Nat → List Char)
    (conditions : List (List Char → Bool)) (max_iterations : Int)
    (salt : List Nat) (iterations : Nat) : MineRun :=
  mineLoopAux deriveAddr conditions (max_iterations - iterations).toNat
    salt iterations

/-- The source's exhaustion test `iterations >= max_iterations` holds
exactly when the fuel `(max_iterations - iterations).toNat` driving
`mineLoopAux` is zero. -/
theorem budget_spent_iff_fuel_zero (max_iterations : Int) (iterations : Nat) :
    max_iterations ≤ (iterations : Int) ↔
      (max_iterations - iterations).toNat = 0 := by
  omega

/-- The whole `mine` command after CLI parsing: validation, then the search
loop started at iteration 0 from the initial salt (`random.randbytes(11)`
in the source — non-deterministic, hence a parameter here). -/
def mine (deriveAddr : List Nat → List Char) (cfg : MineConfig)
    (salt0 : List Nat) : Except MineError MineRun :=
  (build_conditions cfg).map fun conditions =>
    mineLoop deriveAddr conditions cfg.max_iterations salt0 0

/-- The usage error `mine`'s validation raises, if any. -/
def mineValidationError (cfg : MineConfig) : Option MineError :=
  match build_conditions cfg with
  | .ok _ => none
  | .error e => some e

/-- How many conditions validation builds (`none` when it raises). -/
def builtConditionCount (cfg : MineConfig) : Option Nat :=
  match build_conditions cfg with
  | .ok conditions => some conditions.length
  | .error _ => none

/-! ## Concrete fixtures for witnesses and counterexamples -/

/-- A well-formed checksummed-style address string whose canonical bytes
are `0, 1, ..., 19` (so its first 11 bytes differ from its last 11). -/
def addrW : List Char := "0x000102030405060708090a0b0c0d0e0f10111213".toList

/-- An address whose hex digits start and end with the letters `ab`. -/
def addrC3 : List Char := "0xabcdef0123456789abcdef0123456789abcdefab".toList

/-- An address whose first 10 bytes are zero. -/
def addrZ : List Char := "0x00000000000000000000ffffffffffffffffffff".toList

/-- An initial 11-byte salt. -/
def saltW : List Nat := List.replicate 11 255

/-- A derivation function mapping the initial salt `saltW` to `addrW` and
every other salt to `addrZ`. -/
def deriveW : List Nat → List Char :=
  fun s => if s == saltW then addrW else addrZ

/-- A pattern condition accepting exactly `addrZ`. -/
def condZ : List Char → Bool := fun a => a == addrZ

/-- Modelled from the spec's words (claim C2): "the low 11 bytes of the
just-rejected candidate address", i.e. the low-order (last) 11 bytes of the
canonical 20-byte address.  Stated only to be compared with what the code
actually uses, `to_canonical_address(address)[:11]` — the first 11 bytes. -/
def low_11_bytes (a : List Char) : List Nat :=
  pySliceLast 11 (to_canonical_address a)

/-! ## Helper lemmas -/

theorem listMax_eq_zero_iff (l : List Nat) :
    listMax l = 0 ↔ ∀ b ∈ l, b = 0 := by
  induction l with
  | nil => simp [listMax]
  | cons x xs ih =>
    simp only [listMax, List.foldr_cons, List.mem_cons] at *
    constructor
    · intro h b hb
      rcases hb with hb | hb
      · subst hb; omega
      · exact ih.mp (by omega) b hb
    · intro h
      have hx := h x (Or.inl rfl)
      have hxs := ih.mpr fun b hb => h b (Or.inr hb)
      omega

theorem pySliceLast_eq_drop {α : Type} (n : Nat) (hn : n ≠ 0) (l : List α) :
    pySliceLast n l = l.drop (l.length - n) := by
  simp [pySliceLast, hn]

theorem mineLoopAux_calls_le (deriveAddr : List Nat → List Char)
    (conditions : List (List Char → Bool)) (fuel : Nat) (salt : List Nat)
    (iterations : Nat) :
    (mineLoopAux deriveAddr conditions fuel salt iterations).calls ≤ fuel + 1 := by
  induction fuel generalizing salt iterations with
  | zero =>
    rw [mineLoopAux]
    split <;> simp
  | succ f ih =>
    rw [mineLoopAux]
    split
    · simp
    · simpa using Nat.add_le_add_right (ih _ _) 1

theorem mineLoopAux_found_calls (deriveAddr : List Nat → List Char)
    (conditions : List (List Char → Bool)) (fuel : Nat) (salt : List Nat)
    (iterations : Nat) (a : List Char) (n : Nat) (s : List Nat)
    (hfound : (mineLoopAux deriveAddr conditions fuel salt iterations).result
      = .found a n s) :
    (mineLoopAux deriveAddr conditions fuel salt iterations).calls + iterations
      = n + 1 := by
  induction fuel generalizing salt iterations with
  | zero =>
    rw [mineLoopAux] at hfound ⊢
    by_cases hc : conditions_met conditions (deriveAddr salt) = true
    · simp only [hc, if_true] at hfound ⊢
      simp only [MineResult.found.injEq] at hfound
      omega
    · simp [hc] at hfound
  | succ f ih =>
    rw [mineLoopAux] at hfound ⊢
    by_cases hc : conditions_met conditions (deriveAddr salt) = true
    · simp only [hc, if_true] at hfound ⊢
      simp only [MineResult.found.injEq] at hfound
      omega
    · simp only [hc, if_false, Bool.false_eq_true] at hfound ⊢
      have := ih _ _ hfound
      omega

theorem stepLeading_ok (cfg : MineConfig) (conds : List (List Char → Bool))
    (h : ∀ k, cfg.leading_zeros = some k → 0 < k) :
    ∃ c, stepLeading cfg conds = .ok c := by
  cases hk : cfg.leading_zeros with
  | none => exact ⟨conds, by simp [stepLeading, hk]⟩
  | some k =>
    have hpos := h k hk
    exact ⟨conds ++ [has_enough_leading_zeros k.toNat],
      by simp [stepLeading, hk, show ¬(k ≤ 0) by omega]⟩

theorem stepStartsWith_ok (cfg : MineConfig)
    (conds : List (List Char → Bool))
    (h : ∀ q, cfg.starts_with = some q → isHexPattern q = true) :
    ∃ c, stepStartsWith cfg conds = .ok c := by
  cases hq : cfg.starts_with with
  | none => exact ⟨conds, by simp [stepStartsWith, hq]⟩
  | some q =>
    exact ⟨conds ++ [starts_with_pattern cfg.case_sensitive q],
      by simp [stepStartsWith, hq, h q hq]⟩

theorem stepTrailing_ok (cfg : MineConfig) (conds : List (List Char → Bool))
    (h : ∀ k, cfg.trailing_zeros = some k → 0 < k) :
    ∃ c, stepTrailing cfg conds = .ok c := by
  cases hk : cfg.trailing_zeros with
  | none => exact ⟨conds, by simp [stepTrailing, hk]⟩
  | some k =>
    have hpos := h k hk
    exact ⟨conds ++ [has_enough_trailing_zeros k.toNat],
      by simp [stepTrailing, hk, show ¬(k ≤ 0) by omega]⟩

/-! ## Claims -/

/-- C6: for every `n` with `1 ≤ n ≤ 20` and every address (any hex string
with a canonical 20-byte form), `has_enough_leading_zeros n` holds iff the
first `n` canonical bytes are all 0, and `has_enough_trailing_zeros n`
holds iff the last `n` canonical bytes are all 0. -/
theorem zeros_conditions_iff (n : Nat) (h1 : 1 ≤ n) (h2 : n ≤ 20)
    (a : List Char) (ha : (to_canonical_address a).length = 20) :
    (has_enough_leading_zeros n a = true ↔
      ∀ b ∈ (to_canonical_address a).take n, b = 0) ∧
    (has_enough_trailing_zeros n a = true ↔
      ∀ b ∈ (to_canonical_address a).drop (20 - n), b = 0) := by
  constructor
  · rw [has_enough_leading_zeros, beq_iff_eq]
    exact listMax_eq_zero_iff _
  · rw [has_enough_trailing_zeros, beq_iff_eq,
      pySliceLast_eq_drop n (by omega) _, ha]
    exact listMax_eq_zero_iff _

/-- Witness for C6 at `n = 2` and the concrete address `addrZ`. -/
theorem zeros_conditions_iff_witness :
    (has_enough_leading_zeros 2 addrZ = true ↔
      ∀ b ∈ (to_canonical_address addrZ).take 2, b = 0) ∧
    (has_enough_trailing_zeros 2 addrZ = true ↔
      ∀ b ∈ (to_canonical_address addrZ).drop (20 - 2), b = 0) :=
  zeros_conditions_iff 2 (by decide) (by decide) addrZ (by decide)

/-- C7: `conditions_met` over a combined condition list is the conjunction
of `conditions_met` over its parts — matching is the logical AND across all
active conditions. -/
theorem conditions_met_append (c1 c2 : List (List Char → Bool))
    (a : List Char) :
    (conditions_met (c1 ++ c2) a = true ↔
      conditions_met c1 a = true ∧ conditions_met c2 a = true) ∧
    conditions_met (c1 ++ c2) a
      = (conditions_met c1 a && conditions_met c2 a) := by
  simp [conditions_met, List.all_append]

/-- C1: evaluation of the code at a config that sets both `leading_zeros`
and `starts_with` (and symmetrically `trailing_zeros` and `ends_with`).
Source lines 171-179 construct `click.UsageError(...)` without raising it,
so validation reports no error, both conditions are built, and the search
loop runs (here: one derivation call, then budget exhaustion) — the
invocation never fails with a usage error. -/
theorem mine_exclusive_flags_proceeds_to_search :
    mineValidationError ⟨some 1, some ['a'], none, none, false, 0⟩ = none ∧
    builtConditionCount ⟨some 1, some ['a'], none, none, false, 0⟩ = some 2 ∧
    mineValidationError ⟨none, none, some 1, some ['a'], false, 0⟩ = none ∧
    builtConditionCount ⟨none, none, some 1, some ['a'], false, 0⟩ = some 2 ∧
    mine (fun _ => addrW) ⟨some 1, some ['a'], none, none, false, 0⟩ saltW
      = .ok ⟨.exhausted 0, 1⟩ :=
  ⟨rfl, rfl, rfl, rfl, rfl⟩

/-- C3: evaluation of the pattern conditions at an address whose hex digits
start and end with `ab`, in case-insensitive mode.  The code lowercases
only the address side of the comparison, so the uppercase pattern `AB`
fails where the lowercase pattern `ab` succeeds: the result is not
invariant under the pattern's casing, and an uppercase-hex pattern does not
match an address differing only in case. -/
theorem pattern_case_insensitivity_broken :
    starts_with_pattern false ['A', 'B'] addrC3 = false ∧
    starts_with_pattern false ['a', 'b'] addrC3 = true ∧
    ends_with_pattern false ['A', 'B'] addrC3 = false ∧
    ends_with_pattern false ['a', 'b'] addrC3 = true := by
  decide

/-- C5 counterexample: an empty `starts_with` (resp. `ends_with`) pattern
is not rejected — the hex-alphabet subset check passes vacuously,
validation reports no error, and a condition is still built. -/
theorem empty_pattern_not_rejected :
    mineValidationError ⟨none, some [], none, none, false, 5⟩ = none ∧
    builtConditionCount ⟨none, some [], none, none, false, 5⟩ = some 1 ∧
    mineValidationError ⟨none, none, none, some [], false, 5⟩ = none ∧
    builtConditionCount ⟨none, none, none, some [], false, 5⟩ = some 1 :=
  ⟨rfl, rfl, rfl, rfl⟩

/-- C5 amended: an empty pattern passes validation and mining proceeds;
the empty `starts_with` condition accepts every address, while the empty
`ends_with` condition compares the whole address string (Python
`address[-0:]` is the full string) with the empty pattern and therefore
accepts no non-empty address. -/
theorem empty_pattern_accepted_behavior (cs : Bool) (m : Int)
    (a : List Char) (ha : a ≠ []) :
    mineValidationError ⟨none, some [], none, some [], cs, m⟩ = none ∧
    starts_with_pattern cs [] a = true ∧
    ends_with_pattern cs [] a = false := by
  refine ⟨rfl, ?_, ?_⟩
  · cases cs <;> simp [starts_with_pattern]
  · cases cs <;> simp [ends_with_pattern, pySliceLast, ha]

/-- Witness for the amended C5 at concrete inputs. -/
theorem empty_pattern_accepted_behavior_witness :
    mineValidationError ⟨none, some [], none, some [], false, 5⟩ = none ∧
    starts_with_pattern false [] addrC3 = true ∧
    ends_with_pattern false [] addrC3 = false :=
  empty_pattern_accepted_behavior false 5 addrC3 (by decide)

/-- C2 counterexample: in a run where the first candidate `addrW` is
rejected with budget remaining, the salt used for the next (winning)
candidate — reported in the `found` result — is
`to_canonical_address(addrW)[:11]`, the FIRST 11 canonical bytes, which
differs from the low (last) 11 bytes of the rejected address. -/
theorem mine_reseed_not_low_bytes :
    conditions_met [condZ] (deriveW saltW) = false ∧
    (mineLoop deriveW [condZ] 5 saltW 0).result
      = .found addrZ 1 ((to_canonical_address addrW).take 11) ∧
    (to_canonical_address addrW).take 11 ≠ low_11_bytes addrW := by
  decide

/-- C2 amended: in every mining iteration whose candidate is rejected by
the conditions while the budget is not yet exhausted, the loop continues
deterministically with the next salt seed set to the FIRST 11 bytes of the
canonical 20-byte form of the just-rejected candidate address, and the
iteration counter incremented. -/
theorem mineLoop_reseeds_first_11_bytes (deriveAddr : List Nat → List Char)
    (conds : List (List Char → Bool)) (m : Int) (salt : List Nat) (it : Nat)
    (hrej : conditions_met conds (deriveAddr salt) = false)
    (hbud : (it : Int) < m) :
    mineLoop deriveAddr conds m salt it
      = ⟨(mineLoop deriveAddr conds m
            ((to_canonical_address (deriveAddr salt)).take 11) (it + 1)).result,
         (mineLoop deriveAddr conds m
            ((to_canonical_address (deriveAddr salt)).take 11) (it + 1)).calls
           + 1⟩ := by
  have hf : (m - (it : Int)).toNat = (m - ((it + 1 : Nat) : Int)).toNat + 1 := by
    push_cast
    omega
  rw [mineLoop, mineLoop, hf, mineLoopAux]
  simp [hrej]

/-- Witness for the amended C2 at a concrete rejected candidate. -/
theorem mineLoop_reseeds_first_11_bytes_witness :
    mineLoop deriveW [condZ] 5 saltW 0
      = ⟨(mineLoop deriveW [condZ] 5
            ((to_canonical_address (deriveW saltW)).take 11) (0 + 1)).result,
         (mineLoop deriveW [condZ] 5
            ((to_canonical_address (deriveW saltW)).take 11) (0 + 1)).calls
           + 1⟩ :=
  mineLoop_reseeds_first_11_bytes deriveW [condZ] 5 saltW 0
    (by decide) (by decide)

/-- C4: for any budget `k ≥ 0`, the mining loop halts in a `found` or
`exhausted` state after at most `k + 1` address-derivation calls. -/
theorem mineLoop_halts_within_budget (deriveAddr : List Nat → List Char)
    (conds : List (List Char → Bool)) (k : Int) (hk : 0 ≤ k)
    (salt : List Nat) :
    ((mineLoop deriveAddr conds k salt 0).calls : Int) ≤ k + 1 ∧
    ((∃ a n s, (mineLoop deriveAddr conds k salt 0).result = .found a n s) ∨
      ∃ n, (mineLoop deriveAddr conds k salt 0).result = .exhausted n) := by
  constructor
  · have h := mineLoopAux_calls_le deriveAddr conds
      (k - ((0 : Nat) : Int)).toNat salt 0
    rw [mineLoop]
    omega
  · cases hres : (mineLoop deriveAddr conds k salt 0).result with
    | found a n s => exact Or.inl ⟨a, n, s, rfl⟩
    | exhausted n => exact Or.inr ⟨n, rfl⟩

/-- Witness for C4 with a zero budget and an always-rejecting condition. -/
theorem mineLoop_halts_within_budget_witness :
    (((mineLoop deriveW [fun _ => false] 0 saltW 0).calls : Int) ≤ 0 + 1) ∧
    ((∃ a n s,
        (mineLoop deriveW [fun _ => false] 0 saltW 0).result = .found a n s) ∨
      ∃ n, (mineLoop deriveW [fun _ => false] 0 saltW 0).result
        = .exhausted n) :=
  mineLoop_halts_within_budget deriveW [fun _ => false] 0 (by decide) saltW

/-- C10: whenever the loop (started at iteration 0) reports `found` with
iteration count `n`, exactly `n + 1` derivations happened, i.e. `n`
candidates were rejected before the match; and a match on the very first
candidate is reported as found at iteration 0. -/
theorem mineLoop_found_iteration_count (deriveAddr : List Nat → List Char)
    (conds : List (List Char → Bool)) (m : Int) (salt : List Nat)
    (a : List Char) (n : Nat) (s : List Nat)
    (hfound : (mineLoop deriveAddr conds m salt 0).result = .found a n s) :
    (mineLoop deriveAddr conds m salt 0).calls = n + 1 ∧
    (conditions_met conds (deriveAddr salt) = true →
      (mineLoop deriveAddr conds m salt 0).result
        = .found (deriveAddr salt) 0 salt) := by
  constructor
  · have h := mineLoopAux_found_calls deriveAddr conds
      (m - ((0 : Nat) : Int)).toNat salt 0 a n s
      (by rw [mineLoop] at hfound; exact hfound)
    rw [mineLoop]
    omega
  · intro hmet
    rw [mineLoop, mineLoopAux.eq_def]
    simp [hmet]

/-- Witness for C10 at a run that succeeds after one rejection. -/
theorem mineLoop_found_iteration_count_witness :
    (mineLoop deriveW [condZ] 5 saltW 0).calls = 1 + 1 ∧
    (conditions_met [condZ] (deriveW saltW) = true →
      (mineLoop deriveW [condZ] 5 saltW 0).result
        = .found (deriveW saltW) 0 saltW) :=
  mineLoop_found_iteration_count deriveW [condZ] 5 saltW addrZ 1
    ((to_canonical_address addrW).take 11) (by decide)

/-- C8: a `starts_with` (resp. `ends_with`) pattern with a character
outside `0-9a-fA-F` makes `mine` fail with the usage error
"Must be valid hex" during validation, for every derivation function and
initial salt — the address deriver is never consulted (the result does not
depend on it).  The options checked earlier must themselves pass (their
own errors would fire first); later options are arbitrary. -/
theorem nonhex_pattern_rejected (p : List Char) (hp : isHexPattern p = false)
    (lz : Option Int) (hlz : ∀ k, lz = some k → 0 < k)
    (sw : Option (List Char)) (hsw : ∀ q, sw = some q → isHexPattern q = true)
    (tz : Option Int) (htz : ∀ k, tz = some k → 0 < k)
    (ew : Option (List Char)) (cs : Bool) (m : Int)
    (deriveAddr : List Nat → List Char) (salt0 : List Nat) :
    mine deriveAddr ⟨lz, some p, tz, ew, cs, m⟩ salt0
      = .error (.badOption "starts_with" "Must be valid hex") ∧
    mine deriveAddr ⟨lz, sw, tz, some p, cs, m⟩ salt0
      = .error (.badOption "ends_with" "Must be valid hex") := by
  constructor
  · obtain ⟨c1, hc1⟩ := stepLeading_ok ⟨lz, some p, tz, ew, cs, m⟩ [] hlz
    simp [mine, build_conditions, hc1, Except.bind, stepStartsWith, hp,
      Except.map]
  · obtain ⟨c1, hc1⟩ := stepLeading_ok ⟨lz, sw, tz, some p, cs, m⟩ [] hlz
    obtain ⟨c2, hc2⟩ := stepStartsWith_ok ⟨lz, sw, tz, some p, cs, m⟩ c1 hsw
    obtain ⟨c3, hc3⟩ := stepTrailing_ok ⟨lz, sw, tz, some p, cs, m⟩ c2 htz
    simp [mine, build_conditions, hc1, hc2, hc3, Except.bind, stepEndsWith,
      hp, Except.map]

/-- Witness for C8 at the pattern `zz` with all other options unset. -/
theorem nonhex_pattern_rejected_witness :
    mine deriveW ⟨none, some ['z', 'z'], none, none, false, 5000⟩ saltW
      = .error (.badOption "starts_with" "Must be valid hex") ∧
    mine deriveW ⟨none, none, none, some ['z', 'z'], false, 5000⟩ saltW
      = .error (.badOption "ends_with" "Must be valid hex") :=
  nonhex_pattern_rejected ['z', 'z'] (by decide)
    none (fun k h => Option.noConfusion h)
    none (fun q h => Option.noConfusion h)
    none (fun k h => Option.noConfusion h)
    none false 5000 deriveW saltW

/-- C9: a non-positive `leading_zeros` (resp. `trailing_zeros`) count makes
`mine` fail with the usage error "Cannot be less than 1" during validation,
for every derivation function and initial salt — before any derivation
work.  For `leading_zeros` this holds whatever the other options are (its
check is the first that raises); for `trailing_zeros` the options checked
earlier must themselves pass. -/
theorem nonpositive_zero_count_rejected (n : Int) (hn : n ≤ 0)
    (lz : Option Int) (hlz : ∀ k, lz = some k → 0 < k)
    (sw : Option (List Char)) (hsw : ∀ q, sw = some q → isHexPattern q = true)
    (sw2 : Option (List Char)) (tz : Option Int) (ew ew2 : Option (List Char))
    (cs : Bool) (m : Int)
    (deriveAddr : List Nat → List Char) (salt0 : List Nat) :
    mine deriveAddr ⟨some n, sw2, tz, ew2, cs, m⟩ salt0
      = .error (.badOption "leading_zeros" "Cannot be less than 1") ∧
    mine deriveAddr ⟨lz, sw, some n, ew, cs, m⟩ salt0
      = .error (.badOption "trailing_zeros" "Cannot be less than 1") := by
  constructor
  · simp [mine, build_conditions, stepLeading, hn, Except.bind, Except.map]
  · obtain ⟨c1, hc1⟩ := stepLeading_ok ⟨lz, sw, some n, ew, cs, m⟩ [] hlz
    obtain ⟨c2, hc2⟩ := stepStartsWith_ok ⟨lz, sw, some n, ew, cs, m⟩ c1 hsw
    simp [mine, build_conditions, hc1, hc2, Except.bind, stepTrailing, hn,
      Except.map]

/-- Witness for C9 at count 0 with all other options unset. -/
theorem nonpositive_zero_count_rejected_witness :
    mine deriveW ⟨some 0, none, none, none, false, 5000⟩ saltW
      = .error (.badOption "leading_zeros" "Cannot be less than 1") ∧
    mine deriveW ⟨none, none, some 0, none, false, 5000⟩ saltW
      = .error (.badOption "trailing_zeros" "Cannot be less than 1") :=
  nonpositive_zero_count_rejected 0 (by decide)
    none (fun k h => Option.noConfusion h)
    none (fun q h => Option.noConfusion h)
    none none none none false 5000 deriveW saltW

end CreateX
